import Mathlib

/-!
Shallow embedding of the points-ledger core of `src/streamlit_app.py`
(Dougie's Points Bank): the `points_log` store (append / list / delete),
the totals computation `calc_totals`, and the reward helpers
`get_next_reward` / `can_buy`.

Modelling conventions:
* Calendar dates are represented by integers whose order matches
  calendar order (`entry_date DATE` has no time component).
* The Postgres table `points_log` is a `Store`: the current multiset of
  raw rows together with the `SERIAL` sequence counter `nextId`.
  Postgres `SERIAL` hands out `nextval` and never reuses a value after
  a `DELETE`, which is exactly the `nextId` counter.
* A raw stored row may, at the SQL level, carry a `notes` value that is
  NULL (the column has no NOT NULL constraint) and a `points` cell that
  does not read back as a number; `load_entries` coerces both
  (`pd.to_numeric(..., errors="coerce").fillna(0).astype(int)` and
  `df["notes"].fillna("")`).  Raw rows therefore store
  `points : Option Int` and `notes : Option String`, where `none`
  stands for NULL / not parseable as a number.
* `date.today()` inside `calc_totals` is an ambient clock read; it is
  passed explicitly as the `today` argument of the embedding.
* Python's `sorted` and SQL `ORDER BY` are stable sorts; they are
  modelled by `List.insertionSort`, which is stable.
-/

namespace DougPoints

/-- One raw row of the `points_log` table, as stored. -/
structure RawRow where
  id : Nat
  entry_date : Int
  person : String
  activity : String
  points : Option Int
  notes : Option String
deriving DecidableEq, Repr

/-- The state of the backing store: current rows of `points_log`
plus the `SERIAL` sequence counter for `id`. -/
structure Store where
  rows : List RawRow
  nextId : Nat
deriving DecidableEq, Repr

/-- `init_db`: `CREATE TABLE IF NOT EXISTS points_log (id SERIAL PRIMARY KEY, ...)`.
A freshly created table has no rows and its `SERIAL` sequence starts at 1. -/
def init_db : Store := { rows := [], nextId := 1 }

/-- `insert_entry(entry_date, person, activity, points, notes="")`:
`INSERT INTO points_log ...` with values
`int(points)` and `notes or ""`.  The `SERIAL` column assigns the next
sequence value as `id` and bumps the sequence. -/
def insert_entry (s : Store) (entry_date : Int) (person activity : String)
    (points : Int) (notes : String) : Store :=
  { rows := s.rows ++
      [{ id := s.nextId, entry_date := entry_date, person := person,
         activity := activity, points := some points, notes := some notes }],
    nextId := s.nextId + 1 }

/-- `delete_entry(entry_id)`: `DELETE FROM points_log WHERE id = :id`. -/
def delete_entry (s : Store) (entry_id : Nat) : Store :=
  { s with rows := s.rows.filter (fun r => decide (r.id ≠ entry_id)) }

/-- One row as seen by the app after `load_entries` post-processing:
`points` coerced to an integer, `notes` never NULL. -/
structure LedgerEntry where
  id : Nat
  entry_date : Int
  person : String
  activity : String
  points : Int
  notes : String
deriving DecidableEq, Repr

/-- The pandas post-processing of one row in `load_entries`:
`pd.to_numeric(df["points"], errors="coerce").fillna(0).astype(int)`
(a cell that does not parse as a number becomes 0) and
`df["notes"].fillna("")` (NULL notes become the empty string). -/
def coerceRow (r : RawRow) : LedgerEntry :=
  { id := r.id, entry_date := r.entry_date, person := r.person,
    activity := r.activity, points := r.points.getD 0, notes := r.notes.getD "" }

/-- The `ORDER BY entry_date DESC, id DESC` relation on raw rows:
`a` comes no later than `b` when `a`'s date is larger, or the dates tie
and `a`'s id is at least `b`'s. -/
def entryOrder (a b : RawRow) : Prop :=
  b.entry_date < a.entry_date ∨ (a.entry_date = b.entry_date ∧ b.id ≤ a.id)

instance : DecidableRel entryOrder := fun a b => by
  unfold entryOrder; infer_instance

instance : IsTotal RawRow entryOrder := ⟨fun a b => by unfold entryOrder; omega⟩

instance : IsTrans RawRow entryOrder := ⟨fun a b c hab hbc => by
  unfold entryOrder at *; omega⟩

/-- `load_entries()`: `SELECT ... FROM points_log ORDER BY entry_date DESC, id DESC`
followed by the pandas coercions of `points` and `notes`.
(In the source the coercions run under `if not df.empty:`, which agrees
with mapping over the empty list.) -/
def load_entries (s : Store) : List LedgerEntry :=
  (s.rows.insertionSort entryOrder).map coerceRow

/-- `calc_totals(df)` with the ambient `date.today()` read passed in as
`today`.  Returns `(lifetime, balance, today_points)`. -/
def calc_totals (df : List LedgerEntry) (today : Int) : Int × Int × Int :=
  if df.isEmpty then
    (0, 0 + 0, 0)
  else
    let lifetime := ((df.filter (fun e => decide (0 < e.points))).map LedgerEntry.points).sum
    let spent := ((df.filter (fun e => decide (e.points < 0))).map LedgerEntry.points).sum
    let today_pts := ((df.filter (fun e => decide (e.entry_date = today))).map LedgerEntry.points).sum
    (lifetime, lifetime + spent, today_pts)

/-- One reward of the static catalog. -/
structure Reward where
  name : String
  cost : Int
  notes : String
deriving DecidableEq, Repr

/-- The module-level `REWARDS` catalog of the source. -/
def REWARDS : List Reward :=
  [{ name := "🍬 Sweeties", cost := 5, notes := "Pick one sweet" },
   { name := "🎮 30 mins game time", cost := 5, notes := "Extra game time" },
   { name := "📺 Movie night pick", cost := 10, notes := "You choose the film" },
   { name := "🧸 New toy", cost := 25, notes := "A new toy" }]

/-- The `key=lambda x: x["cost"]` sort key relation. -/
def rewardOrder (a b : Reward) : Prop := a.cost ≤ b.cost

instance : DecidableRel rewardOrder := fun a b => by
  unfold rewardOrder; infer_instance

instance : IsTotal Reward rewardOrder := ⟨fun a b => Int.le_total a.cost b.cost⟩

instance : IsTrans Reward rewardOrder :=
  ⟨fun _ _ _ hab hbc => Int.le_trans hab hbc⟩

/-- The body of `get_next_reward`, generalised over the catalog it reads
(the source closes over the module-level `REWARDS`):
`sorted([r for r in rewards if r["cost"] > balance_points], key=lambda x: x["cost"])`,
then the first element if any, else `None`. -/
def get_next_reward_from (rewards : List Reward) (balance_points : Int) : Option Reward :=
  ((rewards.filter (fun r => decide (balance_points < r.cost))).insertionSort rewardOrder).head?

/-- `get_next_reward(balance_points)` of the source, over the module
catalog `REWARDS`. -/
def get_next_reward (balance_points : Int) : Option Reward :=
  get_next_reward_from REWARDS balance_points

/-- The affordability test of the Rewards Shop loop:
`can_buy = balance_points >= r["cost"]`. -/
def can_buy (balance_points : Int) (r : Reward) : Bool :=
  decide (r.cost ≤ balance_points)

/-- One user-triggered store mutation: an `insert_entry` call or a
`delete_entry` call. -/
inductive Op where
  | ins (entry_date : Int) (person activity : String) (points : Int) (notes : String)
  | del (entry_id : Nat)
deriving DecidableEq, Repr

/-- Apply one operation; an insert also reports the `id` the `SERIAL`
sequence assigned to the new row. -/
def applyOp (s : Store) : Op → Store × Option Nat
  | .ins d p a pts n => (insert_entry s d p a pts n, some s.nextId)
  | .del i => (delete_entry s i, none)

/-- Run a sequence of operations, collecting the assigned ids of the
inserts in execution order. -/
def runOps (s : Store) : List Op → Store × List Nat
  | [] => (s, [])
  | op :: ops =>
      let step := applyOp s op
      let rest := runOps step.1 ops
      (rest.1, step.2.toList ++ rest.2)

/-! ### Spec-side sums over an entries snapshot -/

/-- Sum of `points` over entries with `points > 0` (the spec's `lifetime`). -/
def posSum (df : List LedgerEntry) : Int :=
  ((df.filter (fun e => decide (0 < e.points))).map LedgerEntry.points).sum

/-- Sum of `points` over entries with `points < 0` (the spec's `spent`). -/
def negSum (df : List LedgerEntry) : Int :=
  ((df.filter (fun e => decide (e.points < 0))).map LedgerEntry.points).sum

/-- Sign-inclusive sum of `points` over entries dated `today`. -/
def todaySum (df : List LedgerEntry) (today : Int) : Int :=
  ((df.filter (fun e => decide (e.entry_date = today))).map LedgerEntry.points).sum

/-- Sum of `points` over all entries regardless of sign. -/
def allSum (df : List LedgerEntry) : Int := (df.map LedgerEntry.points).sum

/-- `computeTotals` as the spec states it, with no special case for the
empty snapshot: `(lifetime, lifetime + spent, todayPoints)`. -/
def computeTotalsSpec (df : List LedgerEntry) (today : Int) : Int × Int × Int :=
  (posSum df, posSum df + negSum df, todaySum df today)

/-- The display order on post-processed entries:
`entry_date` descending, ties broken by `id` descending. -/
def entryOrderL (a b : LedgerEntry) : Prop :=
  b.entry_date < a.entry_date ∨ (a.entry_date = b.entry_date ∧ b.id ≤ a.id)

/-- `lifetime` as the presentation layer obtains it: first component of
`calc_totals(load_entries())`. -/
def lifetime_of (s : Store) (today : Int) : Int :=
  (calc_totals (load_entries s) today).1

/-- `balance` as the presentation layer obtains it: second component of
`calc_totals(load_entries())`. -/
def balance_of (s : Store) (today : Int) : Int :=
  (calc_totals (load_entries s) today).2.1

/-- First element of minimal `cost` in declaration order: the element a
stable ascending-by-cost sort puts first. -/
def firstMinBy : List Reward → Option Reward
  | [] => none
  | r :: rs =>
      match firstMinBy rs with
      | none => some r
      | some b => if b.cost < r.cost then some b else some r

/-- A store holding rows dated 2024-01-01 (id 1), 2024-01-02 (id 2) and
2024-01-01 (id 3), for the ordering example. -/
def exampleStore : Store :=
  { rows :=
      [{ id := 1, entry_date := 20240101, person := "Dougie", activity := "a",
         points := some 1, notes := some "" },
       { id := 2, entry_date := 20240102, person := "Dougie", activity := "b",
         points := some 2, notes := some "" },
       { id := 3, entry_date := 20240101, person := "Dougie", activity := "c",
         points := some 3, notes := some "" }],
    nextId := 4 }

/-- A store holding one row whose stored `points` does not read back as
a number and whose `notes` is NULL. -/
def badRowStore : Store :=
  { rows :=
      [{ id := 1, entry_date := 0, person := "p", activity := "a",
         points := none, notes := none }],
    nextId := 2 }

/-- Catalog entry `{A, cost 5}` of the affordability example. -/
def rewardA : Reward := { name := "A", cost := 5, notes := "" }

/-- Catalog entry `{B, cost 10}` of the affordability example. -/
def rewardB : Reward := { name := "B", cost := 10, notes := "" }

/-- The two-element catalog `[{A, cost 5}, {B, cost 10}]`. -/
def exampleCatalog : List Reward := [rewardA, rewardB]

theorem posSum_nil : posSum [] = 0 := rfl

theorem negSum_nil : negSum [] = 0 := rfl

theorem todaySum_nil (today : Int) : todaySum [] today = 0 := rfl

theorem posSum_cons (e : LedgerEntry) (df : List LedgerEntry) :
    posSum (e :: df) = (if 0 < e.points then e.points else 0) + posSum df := by
  by_cases h : 0 < e.points <;> simp [posSum, List.filter_cons, h]

theorem negSum_cons (e : LedgerEntry) (df : List LedgerEntry) :
    negSum (e :: df) = (if e.points < 0 then e.points else 0) + negSum df := by
  by_cases h : e.points < 0 <;> simp [negSum, List.filter_cons, h]

theorem posSum_append (df df' : List LedgerEntry) :
    posSum (df ++ df') = posSum df + posSum df' := by
  simp [posSum, List.filter_append]

theorem negSum_append (df df' : List LedgerEntry) :
    negSum (df ++ df') = negSum df + negSum df' := by
  simp [negSum, List.filter_append]

theorem posSum_perm {df df' : List LedgerEntry} (h : df.Perm df') :
    posSum df = posSum df' :=
  ((h.filter _).map _).sum_eq

theorem negSum_perm {df df' : List LedgerEntry} (h : df.Perm df') :
    negSum df = negSum df' :=
  ((h.filter _).map _).sum_eq

theorem todaySum_perm {df df' : List LedgerEntry} (h : df.Perm df') (today : Int) :
    todaySum df today = todaySum df' today :=
  ((h.filter _).map _).sum_eq

theorem negSum_nonpos (df : List LedgerEntry) : negSum df ≤ 0 := by
  induction df with
  | nil => simp [negSum]
  | cons e df ih =>
      rw [negSum_cons]
      by_cases h : e.points < 0 <;> simp [h] <;> omega

theorem allSum_eq (df : List LedgerEntry) : allSum df = posSum df + negSum df := by
  induction df with
  | nil => rfl
  | cons e df ih =>
      rw [show allSum (e :: df) = e.points + allSum df by simp [allSum],
        posSum_cons, negSum_cons, ih]
      rcases lt_trichotomy e.points 0 with h | h | h <;>
        simp [h, not_lt_of_gt] <;> omega

/-- `calc_totals` agrees with the branch-free spec formula on every
snapshot (the empty-snapshot special case of the code coincides with
the sums over the empty list). -/
theorem calc_totals_eq (df : List LedgerEntry) (today : Int) :
    calc_totals df today = computeTotalsSpec df today := by
  cases df with
  | nil => rfl
  | cons e df => rfl

theorem load_entries_perm (s : Store) :
    (load_entries s).Perm (s.rows.map coerceRow) :=
  (List.perm_insertionSort entryOrder s.rows).map coerceRow

theorem lifetime_of_eq (s : Store) (today : Int) :
    lifetime_of s today = posSum (s.rows.map coerceRow) := by
  rw [lifetime_of, calc_totals_eq]
  exact posSum_perm (load_entries_perm s)

theorem balance_of_eq (s : Store) (today : Int) :
    balance_of s today = posSum (s.rows.map coerceRow) + negSum (s.rows.map coerceRow) := by
  rw [balance_of, calc_totals_eq]
  rw [show (computeTotalsSpec (load_entries s) today).2.1
      = posSum (load_entries s) + negSum (load_entries s) from rfl,
    posSum_perm (load_entries_perm s), negSum_perm (load_entries_perm s)]

/-- C1: for every entries snapshot, the balance returned by
`calc_totals` equals the sum of the points of all entries regardless of
sign, and equals `lifetime + spent` where `lifetime` sums the positive
entries, `spent` sums the negative entries, and `spent ≤ 0`. -/
theorem balance_eq_allSum_and_split (entries : List LedgerEntry) (today : Int) :
    (calc_totals entries today).2.1 = allSum entries ∧
    (calc_totals entries today).2.1 = posSum entries + negSum entries ∧
    negSum entries ≤ 0 := by
  rw [calc_totals_eq]
  exact ⟨(allSum_eq entries).symm, rfl, negSum_nonpos entries⟩

/-- C2: `calc_totals` returns `lifetime` equal to the sum over entries
with positive points and `todayPoints` equal to the sign-inclusive sum
over entries dated `today`, and returns `(0, 0, 0)` on the empty
snapshot. -/
theorem calc_totals_components (entries : List LedgerEntry) (today : Int) :
    (calc_totals entries today).1 = posSum entries ∧
    (calc_totals entries today).2.2 = todaySum entries today ∧
    calc_totals [] today = (0, 0, 0) := by
  rw [calc_totals_eq]
  exact ⟨rfl, rfl, rfl⟩

/-- C8: `calc_totals` (with the ambient `date.today()` read made an
explicit argument) is a pure total function of the snapshot and the
date: it equals a branch-free closed form on every well-typed input, so
it cannot fail, and two runs on the same snapshot and date return
identical results. -/
theorem calc_totals_pure (df : List LedgerEntry) (today : Int) :
    calc_totals df today = computeTotalsSpec df today ∧
    ∀ df' today', df = df' → today = today' →
      calc_totals df today = calc_totals df' today' := by
  refine ⟨calc_totals_eq df today, ?_⟩
  intro df' today' h1 h2
  rw [h1, h2]

/-- Witness for C8 at a concrete snapshot and date. -/
theorem calc_totals_pure_witness :
    calc_totals [] 0 = computeTotalsSpec [] 0 ∧ calc_totals [] 0 = calc_totals [] 0 :=
  ⟨(calc_totals_pure [] 0).1, (calc_totals_pure [] 0).2 [] 0 rfl rfl⟩

/-- C3: `load_entries` returns all current rows sorted by `entry_date`
descending then `id` descending; on the example store with rows dated
2024-01-01/id 1, 2024-01-02/id 2 and 2024-01-01/id 3 the returned id
order is `[2, 3, 1]`; and an empty store yields the empty sequence. -/
theorem load_entries_sorted :
    (∀ s : Store,
        (load_entries s).Pairwise entryOrderL ∧
        (load_entries s).Perm (s.rows.map coerceRow) ∧
        (s.rows = [] → load_entries s = [])) ∧
    (load_entries exampleStore).map LedgerEntry.id = [2, 3, 1] := by
  constructor
  · intro s
    refine ⟨?_, load_entries_perm s, ?_⟩
    · have hs : (s.rows.insertionSort entryOrder).Pairwise entryOrder :=
        List.sorted_insertionSort entryOrder s.rows
      rw [load_entries, List.pairwise_map]
      exact hs.imp (fun h => h)
    · intro h
      rw [load_entries, h]
      rfl
  · rfl

/-- Witness for C3 at the empty store. -/
theorem load_entries_sorted_witness :
    (load_entries init_db).Pairwise entryOrderL ∧ load_entries init_db = [] :=
  ⟨(load_entries_sorted.1 init_db).1, (load_entries_sorted.1 init_db).2.2 rfl⟩

/-- C4: deleting an id that matches no row leaves the store unchanged
(and raises no error), and deleting the same id twice produces the same
store state as deleting it once. -/
theorem delete_noop_idempotent (s : Store) (x : Nat) :
    ((∀ r ∈ s.rows, r.id ≠ x) → delete_entry s x = s) ∧
    delete_entry (delete_entry s x) x = delete_entry s x := by
  constructor
  · intro h
    cases s with
    | mk rows nid =>
        simp only [delete_entry, Store.mk.injEq, and_true]
        exact List.filter_eq_self.mpr (fun r hr => decide_eq_true (h r hr))
  · cases s with
    | mk rows nid =>
        simp [delete_entry, List.filter_filter]

/-- Witness for C4: id 99 matches no row of the example store. -/
theorem delete_noop_idempotent_witness :
    delete_entry exampleStore 99 = exampleStore ∧
    delete_entry (delete_entry exampleStore 99) 99 = delete_entry exampleStore 99 :=
  ⟨(delete_noop_idempotent exampleStore 99).1 (by decide),
   (delete_noop_idempotent exampleStore 99).2⟩

theorem runOps_spec (ops : List Op) (s : Store) :
    s.nextId ≤ (runOps s ops).1.nextId ∧
    (∀ i ∈ (runOps s ops).2, s.nextId ≤ i) ∧
    ((runOps s ops).2).Pairwise (· < ·) := by
  induction ops generalizing s with
  | nil => simp [runOps]
  | cons op ops ih =>
      cases op with
      | ins d p a pts n =>
          obtain ⟨h1, h2, h3⟩ := ih (insert_entry s d p a pts n)
          have hn : (insert_entry s d p a pts n).nextId = s.nextId + 1 := rfl
          rw [hn] at h1 h2
          have hrun : runOps s (Op.ins d p a pts n :: ops)
              = ((runOps (insert_entry s d p a pts n) ops).1,
                 s.nextId :: (runOps (insert_entry s d p a pts n) ops).2) := rfl
          rw [hrun]
          refine ⟨Nat.le_trans (Nat.le_succ _) h1, ?_, ?_⟩
          · intro i hi
            rcases List.mem_cons.mp hi with h | h
            · omega
            · have := h2 i h
              omega
          · exact List.Pairwise.cons (fun i hi => by have := h2 i hi; omega) h3
      | del i =>
          obtain ⟨h1, h2, h3⟩ := ih (delete_entry s i)
          have hrun : runOps s (Op.del i :: ops)
              = ((runOps (delete_entry s i) ops).1,
                 (runOps (delete_entry s i) ops).2) := rfl
          rw [hrun]
          exact ⟨h1, h2, h3⟩

/-- C5: running any sequence of insert/delete operations from the fresh
store assigns the insert ids in strictly increasing order — each
append's id exceeds every previously assigned id even when earlier rows
were deleted in between — and no id is ever reused. -/
theorem insert_ids_monotone (ops : List Op) :
    ((runOps init_db ops).2).Pairwise (· < ·) ∧ ((runOps init_db ops).2).Nodup :=
  ⟨(runOps_spec ops init_db).2.2,
   List.Pairwise.imp (fun h => Nat.ne_of_lt h) (runOps_spec ops init_db).2.2⟩

theorem insert_rows_map (s : Store) (d : Int) (per act no : String) (pts : Int) :
    (insert_entry s d per act pts no).rows.map coerceRow
      = s.rows.map coerceRow ++
        [coerceRow { id := s.nextId, entry_date := d, person := per,
                     activity := act, points := some pts, notes := some no }] := by
  simp [insert_entry]

theorem lifetime_of_insert (s : Store) (d : Int) (per act no : String) (pts t : Int) :
    lifetime_of (insert_entry s d per act pts no) t
      = lifetime_of s t + (if 0 < pts then pts else 0) := by
  rw [lifetime_of_eq, lifetime_of_eq, insert_rows_map, posSum_append, posSum_cons,
    posSum_nil]
  simp [coerceRow]

/-- C6: appending a positive-points entry never decreases the computed
lifetime total, and appending a negative-points entry leaves it exactly
unchanged. -/
theorem lifetime_insert_monotone (s : Store) (d : Int) (per act no : String)
    (pts t : Int) :
    (0 < pts → lifetime_of s t ≤ lifetime_of (insert_entry s d per act pts no) t) ∧
    (pts < 0 → lifetime_of (insert_entry s d per act pts no) t = lifetime_of s t) := by
  refine ⟨fun h => ?_, fun h => ?_⟩
  · rw [lifetime_of_insert, if_pos h]
    omega
  · rw [lifetime_of_insert, if_neg (by omega)]
    omega

/-- Witness for C6: a +3 append and a -2 append on the fresh store. -/
theorem lifetime_insert_monotone_witness :
    lifetime_of init_db 0 ≤ lifetime_of (insert_entry init_db 1 "Dougie" "t" 3 "") 0 ∧
    lifetime_of (insert_entry init_db 1 "Dougie" "t" (-2) "") 0 = lifetime_of init_db 0 :=
  ⟨(lifetime_insert_monotone init_db 1 "Dougie" "t" "" 3 0).1 (by decide),
   (lifetime_insert_monotone init_db 1 "Dougie" "t" "" (-2) 0).2 (by decide)⟩

/-- C9: `insert_entry` performs no semantic validation: whatever signed
points value is supplied — including a spend whose magnitude exceeds
the current balance — the row is persisted exactly as given and the
balance moves by exactly that amount (going negative if need be),
with no error path. -/
theorem insert_no_validation (s : Store) (d : Int) (per act no : String) (pts t : Int) :
    (insert_entry s d per act pts no).rows
      = s.rows ++ [{ id := s.nextId, entry_date := d, person := per,
                     activity := act, points := some pts, notes := some no }] ∧
    balance_of (insert_entry s d per act pts no) t = balance_of s t + pts := by
  refine ⟨rfl, ?_⟩
  rw [balance_of_eq, balance_of_eq, insert_rows_map, posSum_append, posSum_cons,
    posSum_nil, negSum_append, negSum_cons, negSum_nil]
  simp only [coerceRow, Option.getD_some]
  split_ifs <;> omega

theorem firstMinBy_eq_none (l : List Reward) : firstMinBy l = none ↔ l = [] := by
  cases l with
  | nil => simp [firstMinBy]
  | cons r rs =>
      cases hm : firstMinBy rs with
      | none => simp [firstMinBy, hm]
      | some b =>
          simp only [firstMinBy, hm]
          split <;> simp

theorem head_insertionSort_eq_firstMin (l : List Reward) :
    (l.insertionSort rewardOrder).head? = firstMinBy l := by
  induction l with
  | nil => rfl
  | cons r rs ih =>
      cases hm : firstMinBy rs with
      | none =>
          have hrs : rs = [] := (firstMinBy_eq_none rs).mp hm
          subst hrs
          rfl
      | some b =>
          rw [hm] at ih
          obtain ⟨t, ht⟩ : ∃ t, rs.insertionSort rewardOrder = b :: t := by
            cases hs : rs.insertionSort rewardOrder with
            | nil => rw [hs] at ih; simp at ih
            | cons c t =>
                rw [hs, List.head?_cons] at ih
                exact ⟨t, by rw [Option.some.injEq] at ih; rw [ih]⟩
          simp only [List.insertionSort, firstMinBy, hm]
          rw [ht, List.orderedInsert]
          by_cases hrb : rewardOrder r b
          · rw [if_pos hrb, List.head?_cons, if_neg (not_lt.mpr hrb)]
          · rw [if_neg hrb, List.head?_cons, if_pos (not_le.mp hrb)]

theorem firstMinBy_spec (l : List Reward) (r : Reward) (h : firstMinBy l = some r) :
    r ∈ l ∧ (∀ x ∈ l, r.cost ≤ x.cost) ∧
    ∃ l₁ l₂, l = l₁ ++ r :: l₂ ∧ ∀ x ∈ l₁, r.cost < x.cost := by
  induction l generalizing r with
  | nil => simp [firstMinBy] at h
  | cons a rs ih =>
      cases hm : firstMinBy rs with
      | none =>
          have hrs : rs = [] := (firstMinBy_eq_none rs).mp hm
          subst hrs
          simp only [firstMinBy, Option.some.injEq] at h
          subst h
          exact ⟨by simp, by simp, [], [], rfl, by simp⟩
      | some b =>
          simp only [firstMinBy, hm] at h
          by_cases hba : b.cost < a.cost
          · rw [if_pos hba, Option.some.injEq] at h
            subst h
            obtain ⟨hmem, hmin, l₁, l₂, heq, hgt⟩ := ih b hm
            refine ⟨List.mem_cons_of_mem a hmem, ?_, a :: l₁, l₂, by simp [heq], ?_⟩
            · intro x hx
              rcases List.mem_cons.mp hx with rfl | hx
              · exact le_of_lt hba
              · exact hmin x hx
            · intro x hx
              rcases List.mem_cons.mp hx with rfl | hx
              · exact hba
              · exact hgt x hx
          · rw [if_neg hba, Option.some.injEq] at h
            subst h
            obtain ⟨hmem, hmin, _⟩ := ih b hm
            refine ⟨List.mem_cons_self a rs, ?_, [], rs, rfl, by simp⟩
            intro x hx
            rcases List.mem_cons.mp hx with rfl | hx
            · exact le_refl _
            · exact le_trans (not_lt.mp hba) (hmin x hx)

/-- C7: a reward is affordable exactly when its cost is at most the
balance and locked exactly when its cost exceeds it; the next reward is
the locked catalog entry of minimal cost, ties resolved by catalog
order (first declared wins); there is no next reward exactly when
nothing is locked; and on the catalog `[{A, 5}, {B, 10}]` with balance
7, A is affordable and the next locked reward is B. -/
theorem reward_affordability :
    (∀ (b : Int) (r : Reward),
        (can_buy b r = true ↔ r.cost ≤ b) ∧ (can_buy b r = false ↔ b < r.cost)) ∧
    (∀ (cat : List Reward) (b : Int) (r : Reward),
        get_next_reward_from cat b = some r →
          b < r.cost ∧ r ∈ cat ∧
          (∀ rr ∈ cat, b < rr.cost → r.cost ≤ rr.cost) ∧
          ∃ l₁ l₂, cat.filter (fun x => decide (b < x.cost)) = l₁ ++ r :: l₂ ∧
            ∀ x ∈ l₁, r.cost < x.cost) ∧
    (∀ (cat : List Reward) (b : Int),
        get_next_reward_from cat b = none ↔ ∀ r ∈ cat, r.cost ≤ b) ∧
    (can_buy 7 rewardA = true ∧ can_buy 7 rewardB = false ∧
      get_next_reward_from exampleCatalog 7 = some rewardB) := by
  refine ⟨?_, ?_, ?_, by decide, by decide, by decide⟩
  · intro b r
    constructor
    · rw [can_buy]
      exact decide_eq_true_iff
    · rw [can_buy]
      rw [decide_eq_false_iff_not]
      exact not_le
  · intro cat b r h
    rw [get_next_reward_from, head_insertionSort_eq_firstMin] at h
    obtain ⟨hmem, hmin, l₁, l₂, heq, hgt⟩ := firstMinBy_spec _ r h
    have hm := List.mem_filter.mp hmem
    refine ⟨of_decide_eq_true hm.2, hm.1, ?_, l₁, l₂, heq, hgt⟩
    intro rr hrr hb
    exact hmin rr (List.mem_filter.mpr ⟨hrr, decide_eq_true hb⟩)
  · intro cat b
    rw [get_next_reward_from, List.head?_eq_none_iff]
    constructor
    · intro hsort
      have hfil : cat.filter (fun x => decide (b < x.cost)) = [] := by
        have hp := List.perm_insertionSort rewardOrder
          (cat.filter (fun x => decide (b < x.cost)))
        rw [hsort] at hp
        exact hp.symm.eq_nil
      intro r hr
      have := List.filter_eq_nil_iff.mp hfil r hr
      simpa using this
    · intro hle
      have hfil : cat.filter (fun x => decide (b < x.cost)) = [] :=
        List.filter_eq_nil_iff.mpr (fun r hr => by simpa using hle r hr)
      rw [hfil]
      rfl

/-- Witness for C7: applying the characterisation to the example
catalog at balance 7 selects B. -/
theorem reward_affordability_witness :
    (7 : Int) < rewardB.cost ∧ rewardB ∈ exampleCatalog :=
  ⟨(reward_affordability.2.1 exampleCatalog 7 rewardB (by decide)).1,
   (reward_affordability.2.1 exampleCatalog 7 rewardB (by decide)).2.1⟩

/-- C10: every entry returned by `load_entries` is the coercion of a
stored row: its `points` is the stored value read as an integer with
NULL / unparseable cells becoming 0, and its `notes` is the stored text
with NULL becoming the empty string — downstream totals never see a
missing or non-integer field. -/
theorem load_entries_coerced (s : Store) (e : LedgerEntry)
    (he : e ∈ load_entries s) :
    ∃ r ∈ s.rows, e = coerceRow r ∧ e.points = r.points.getD 0 ∧
      e.notes = r.notes.getD "" := by
  rw [load_entries] at he
  obtain ⟨r, hr, hre⟩ := List.mem_map.mp he
  refine ⟨r, (List.perm_insertionSort entryOrder s.rows).mem_iff.mp hr,
    hre.symm, ?_, ?_⟩
  · rw [← hre]
    rfl
  · rw [← hre]
    rfl

/-- Witness for C10: the store holding one row with NULL notes and an
unreadable points cell loads as a single entry with points 0 and empty
notes. -/
theorem load_entries_coerced_witness :
    ∃ r ∈ badRowStore.rows,
      ({ id := 1, entry_date := 0, person := "p", activity := "a",
         points := 0, notes := "" } : LedgerEntry) = coerceRow r ∧
      ({ id := 1, entry_date := 0, person := "p", activity := "a",
         points := 0, notes := "" } : LedgerEntry).points = r.points.getD 0 ∧
      ({ id := 1, entry_date := 0, person := "p", activity := "a",
         points := 0, notes := "" } : LedgerEntry).notes = r.notes.getD "" :=
  load_entries_coerced badRowStore _ (by decide)

end DougPoints
